import Mathlib

/-!
Verification of the `editor` module of the raster image library.

The editor source (`src/editor.rs`) is embedded below as executable Lean
definitions.  Machine integers (`i32`) are carried as `Int`; the `f32`/`f64`
arithmetic of the resize family is carried exactly over `ℚ`, with Rust's
`round()` (half away from zero) and `as i32` (truncation toward zero)
modelled explicitly.  The collaborators of the editor that live outside
`src/` (the pixel buffer, the position resolver, the colour type and the
per-pixel blend functions) are modelled from the spec and say so in their
doc comments.
-/

set_option maxHeartbeats 1000000

namespace Raster

/-- Modelled from the spec: the `Color` value type of the external `color`
module (not under `src/`): four 8-bit channels `r`, `g`, `b`, `a`, carried
here as natural numbers. -/
structure Color where
  r : Nat
  g : Nat
  b : Nat
  a : Nat
  deriving DecidableEq, Repr

/-- Modelled from the spec: the `Color::rgba` constructor. -/
def Color.rgba (r g b a : Nat) : Color := ⟨r, g, b, a⟩

/-- Modelled from the spec: the external Pixel Buffer (`image` module, not
under `src/`): a signed width and height together with the pixel grid.  The
spec's row-major byte buffer is abstracted as a total function from
coordinates to `Color`; the editor touches pixels only through the
bounds-checked `get_pixel` / `set_pixel` interface below, exactly as the
spec describes. -/
structure Image where
  width : Int
  height : Int
  pix : Int → Int → Color

/-- Modelled from the spec: `Image::blank(w, h)` yields a zero-filled
(fully transparent black) buffer of the given dimensions. -/
def Image.blank (w h : Int) : Image :=
  ⟨w, h, fun _ _ => Color.rgba 0 0 0 0⟩

/-- Modelled from the spec: bounds-checked pixel read,
`get_pixel(x, y) -> Color | Error(OutOfBounds)`. -/
def get_pixel (img : Image) (x y : Int) : Except String Color :=
  if 0 ≤ x ∧ x < img.width ∧ 0 ≤ y ∧ y < img.height then
    .ok (img.pix x y)
  else
    .error "OutOfBounds"

/-- Modelled from the spec: bounds-checked pixel write,
`set_pixel(x, y, color) -> () | Error(OutOfBounds)`; the write produces the
updated buffer. -/
def set_pixel (img : Image) (x y : Int) (c : Color) : Except String Image :=
  if 0 ≤ x ∧ x < img.width ∧ 0 ≤ y ∧ y < img.height then
    .ok ⟨img.width, img.height, fun a b => if a = x ∧ b = y then c else img.pix a b⟩
  else
    .error "OutOfBounds"

/-- Modelled from the spec: the external Position Resolver (`position`
module, not under `src/`).  Maps an anchor keyword plus raw offsets and the
outer and inner sizes to the signed top-left placement of the inner
rectangle inside the outer one; the raw offsets are added to the anchor
placement, and unknown anchors are rejected.  Division is `i32` division,
truncating toward zero. -/
def Position.getXY (position : String) (dx dy : Int) (cw ch iw ih : Int) :
    Except String (Int × Int) :=
  if position = "top-left" then .ok (dx, dy)
  else if position = "top-center" then .ok (Int.tdiv (cw - iw) 2 + dx, dy)
  else if position = "top-right" then .ok (cw - iw + dx, dy)
  else if position = "center-left" then .ok (dx, Int.tdiv (ch - ih) 2 + dy)
  else if position = "center" then
    .ok (Int.tdiv (cw - iw) 2 + dx, Int.tdiv (ch - ih) 2 + dy)
  else if position = "center-right" then
    .ok (cw - iw + dx, Int.tdiv (ch - ih) 2 + dy)
  else if position = "bottom-left" then .ok (dx, ch - ih + dy)
  else if position = "bottom-center" then
    .ok (Int.tdiv (cw - iw) 2 + dx, ch - ih + dy)
  else if position = "bottom-right" then .ok (cw - iw + dx, ch - ih + dy)
  else .error ("Invalid position " ++ position)

/-- Modelled from Rust's ASCII `str::to_lowercase` as used on the blend-mode
keywords: every ASCII upper-case letter is shifted to its lower-case
counterpart, all other characters are kept. -/
def lowerChar (c : Char) : Char :=
  if 65 ≤ c.toNat ∧ c.toNat ≤ 90 then Char.ofNat (c.toNat + 32) else c

/-- Lowercasing of a whole string, character by character. -/
def lowerStr (s : String) : String :=
  String.mk (s.data.map lowerChar)

/-- Rust `f64::round` / `f32::round` on an exact rational: round half away
from zero, as Rust does. -/
def roundAway (q : ℚ) : Int :=
  if q < 0 then -Int.floor (-q + 1/2) else Int.floor (q + 1/2)

/-- Rust `as i32` conversion of an exact rational: truncation toward
zero. -/
def truncQ (q : ℚ) : Int :=
  if q < 0 then -Int.floor (-q) else Int.floor q

/-- Sequencing of a fallible loop body over the indices `0, 1, …, n-1` in
ascending order, threading the accumulator and short-circuiting on the
first error — the shape of every `for … in 0..n` loop of `editor.rs` whose
body uses `try!`. -/
def foldRangeE {α : Type} (f : α → Nat → Except String α) : Nat → α → Except String α
  | 0, a => .ok a
  | n + 1, a =>
    match foldRangeE f n a with
    | .ok b => f b n
    | .error e => .error e

/-- Row-major double loop over `x ∈ [sx, ex)`, `y ∈ [sy, ey)` that, at each
position, computes a colour and writes it at the translated coordinate
`(x + tx, y + ty)` of the accumulated image, short-circuiting on the first
error.  This is the common shape of the pixel loops of `crop`, `fill`,
`interpolate_nearest` and the blend loop. -/
def writeLoop (sx ex sy ey tx ty : Int) (g : Int → Int → Except String Color)
    (init : Image) : Except String Image :=
  foldRangeE
    (fun img j =>
      foldRangeE
        (fun img2 i =>
          match g (sx + (i : Int)) (sy + (j : Int)) with
          | .ok c => set_pixel img2 (sx + (i : Int) + tx) (sy + (j : Int) + ty) c
          | .error e => .error e)
        (ex - sx).toNat img)
    (ey - sy).toNat init

/-- Embedding of `editor::copy`: a fresh image with the same width, height
and pixel data. -/
def copy (src : Image) : Image :=
  ⟨src.width, src.height, src.pix⟩

/-- Embedding of the `loop_start_x` / `loop_start_y` computation of
`editor::blend` (lines 77–83 and 93–99): the overlay-local start of the
loop, pushed right by the part of the overlay hanging off the negative side
of the canvas. -/
def clipStart (offset : Int) : Int :=
  if offset < 0 then 0 + (0 - offset) else 0

/-- Embedding of the `loop_end_x` / `loop_end_y` computation of
`editor::blend` (lines 85–91 and 101–107): the overlay-local end of the
loop, pulled left by the part of the overlay hanging past the positive side
of the canvas. -/
def clipEnd (size2 offset size1 : Int) : Int :=
  if offset + size2 > size1 then size2 - (offset + size2 - size1) else size2

/-- Modelled from the spec: the per-channel `normal` blend function of the
external `blend` module (not under `src/`): the result is the overlay
channel. -/
def channelNormal (_b o : ℚ) : ℚ := o

/-- Modelled from the spec: the per-channel `difference` blend function:
the absolute difference of base and overlay. -/
def channelDifference (b o : ℚ) : ℚ := |b - o|

/-- Modelled from the spec: the per-channel `multiply` blend function. -/
def channelMultiply (b o : ℚ) : ℚ := b * o

/-- Modelled from the spec: the per-channel `screen` blend function. -/
def channelScreen (b o : ℚ) : ℚ := 1 - (1 - b) * (1 - o)

/-- Modelled from the spec: the per-channel `overlay` blend function. -/
def channelOverlay (b o : ℚ) : ℚ :=
  if b ≤ 1/2 then 2 * b * o else 1 - 2 * (1 - b) * (1 - o)

/-- Modelled from the spec: one blended pixel.  The 0–255 integer samples
are treated as rationals in `[0,1]`, the selected per-channel blend
function is applied, the result is opacity-mixed with the base channel and
rescaled; the alpha channel is carried from the base. -/
def mixPixel (f : ℚ → ℚ → ℚ) (base over : Color) (opacity : ℚ) : Color :=
  let ch := fun (b o : Nat) =>
    let bb : ℚ := (b : ℚ) / 255
    let oo : ℚ := (o : ℚ) / 255
    let mixed := bb * (1 - opacity) + f bb oo * opacity
    (truncQ (mixed * 255)).toNat
  Color.rgba (ch base.r over.r) (ch base.g over.g) (ch base.b over.b) base.a

/-- Modelled from the spec: the common loop of `blend::normal`,
`blend::difference`, `blend::multiply`, `blend::overlay` and
`blend::screen` (module not under `src/`): start from a copy of the base,
and for every overlay-local `(x, y)` inside the supplied clipped bounds
fetch the base pixel at `(x + offset_x, y + offset_y)` and the overlay
pixel at `(x, y)`, blend them per channel and write the result at the
translated coordinate. -/
def blendLoop (f : ℚ → ℚ → ℚ) (img1 img2 : Image)
    (lsy ley lsx lex ox oy : Int) (opacity : ℚ) : Except String Image :=
  writeLoop lsx lex lsy ley ox oy
    (fun x y =>
      match get_pixel img1 (x + ox) (y + oy), get_pixel img2 x y with
      | .ok b, .ok o => .ok (mixPixel f b o opacity)
      | .error e, _ => .error e
      | .ok _, .error e => .error e)
    (copy img1)

/-- Embedding of `editor::blend` (lines 50–135): clamp the opacity, resolve
the overlay placement, reject a non-overlapping overlay, clip the loop
bounds and dispatch on the lower-cased blend mode. -/
def blend (image1 image2 : Image) (blend_mode : String) (opacity : ℚ)
    (position : String) (offset_x offset_y : Int) : Except String Image :=
  let opacity := if opacity > 1 then (1 : ℚ) else if opacity < 0 then 0 else opacity
  match Position.getXY position offset_x offset_y image1.width image1.height
      image2.width image2.height with
  | .error e => .error e
  | .ok (ox, oy) =>
    if ox ≥ image1.width ∨ ox + image2.width ≤ 0 ∨ oy ≥ image1.height ∨
        oy + image2.height ≤ 0 then
      .error "Invalid blending. Image 2 is outside the canvas."
    else
      let lsx := clipStart ox
      let lex := clipEnd image2.width ox image1.width
      let lsy := clipStart oy
      let ley := clipEnd image2.height oy image1.height
      let m := lowerStr blend_mode
      if m = "normal" then
        blendLoop channelNormal image1 image2 lsy ley lsx lex ox oy opacity
      else if m = "difference" then
        blendLoop channelDifference image1 image2 lsy ley lsx lex ox oy opacity
      else if m = "multiply" then
        blendLoop channelMultiply image1 image2 lsy ley lsx lex ox oy opacity
      else if m = "overlay" then
        blendLoop channelOverlay image1 image2 lsy ley lsx lex ox oy opacity
      else if m = "screen" then
        blendLoop channelScreen image1 image2 lsy ley lsx lex ox oy opacity
      else
        .error ("Invalid blend type " ++ m ++ ".")

/-- Embedding of `editor::crop` (lines 178–207): resolve the placement,
clamp negative offsets to zero, clamp the end coordinates to the source
bounds, and copy the clipped rectangle pixel by pixel into a fresh
buffer. -/
def crop (src : Image) (crop_width crop_height : Int) (position : String)
    (offset_x offset_y : Int) : Except String Image :=
  match Position.getXY position offset_x offset_y src.width src.height
      crop_width crop_height with
  | .error e => .error e
  | .ok (ox0, oy0) =>
    let ox := if ox0 < 0 then 0 else ox0
    let oy := if oy0 < 0 then 0 else oy0
    let height2 := if oy + crop_height > src.height then src.height else oy + crop_height
    let width2 := if ox + crop_width > src.width then src.width else ox + crop_width
    let dest := Image.blank (width2 - ox) (height2 - oy)
    writeLoop 0 dest.width 0 dest.height 0 0
      (fun x y =>
        match get_pixel src (ox + x) (oy + y) with
        | .ok p => .ok (Color.rgba p.r p.g p.b p.a)
        | .error e => .error e)
      dest

/-- Embedding of `editor::fill` (lines 226–237): a fresh buffer of the
source's dimensions with every pixel set to the given colour. -/
def fill (src : Image) (color : Color) : Except String Image :=
  let dest := Image.blank src.width src.height
  writeLoop 0 dest.width 0 dest.height 0 0 (fun _ _ => .ok color) dest

/-- Embedding of `editor::interpolate_nearest` (lines 419–437): each
destination pixel `(x, y)` is read from the source at
`(floor(x * src.width / w), floor(y * src.height / h))`. -/
def interpolate_nearest (src : Image) (w h : Int) : Except String Image :=
  let x_ratio : ℚ := (src.width : ℚ) / (w : ℚ)
  let y_ratio : ℚ := (src.height : ℚ) / (h : ℚ)
  let dest := Image.blank w h
  writeLoop 0 w 0 h 0 0
    (fun x y =>
      get_pixel src (Int.floor ((x : ℚ) * x_ratio)) (Int.floor ((y : ℚ) * y_ratio)))
    dest

/-- Embedding of `editor::resample` (lines 440–459): dispatch on the
interpolation keyword; `bilinear` and `bicubic` are stubbed to
nearest-neighbour in the source. -/
def resample (src : Image) (w h : Int) (interpolation : String) :
    Except String Image :=
  if interpolation = "bilinear" then interpolate_nearest src w h
  else if interpolation = "bicubic" then interpolate_nearest src w h
  else if interpolation = "nearest" then interpolate_nearest src w h
  else .error ("Invalid interpolation \x27" ++ interpolation ++ "\x27")

/-- Embedding of `editor::resize_exact` (lines 284–288). -/
def resize_exact (src : Image) (w h : Int) : Except String Image :=
  resample src w h "bicubic"

/-- Embedding of `editor::resize_exact_height` (lines 304–315): the width
is `(h * ratio) as i32`, truncated. -/
def resize_exact_height (src : Image) (h : Int) : Except String Image :=
  let ratio : ℚ := (src.width : ℚ) / (src.height : ℚ)
  resample src (truncQ ((h : ℚ) * ratio)) h "bicubic"

/-- Embedding of `editor::resize_exact_width` (lines 331–341): the height
is `(w / ratio).round() as i32`, rounded to nearest. -/
def resize_exact_width (src : Image) (w : Int) : Except String Image :=
  let ratio : ℚ := (src.width : ℚ) / (src.height : ℚ)
  resample src w (roundAway ((w : ℚ) / ratio)) "bicubic"

/-- Embedding of `editor::resize_fill` (lines 356–375): compute an optimum
size based on the width, fall back to the height when the branch condition
fires, resample, then trim the excess with a top-left crop. -/
def resize_fill (src : Image) (w h : Int) : Except String Image :=
  let ratio : ℚ := (src.width : ℚ) / (src.height : ℚ)
  let optimum_width := w
  let optimum_height := roundAway ((w : ℚ) / ratio)
  let p :=
    if optimum_width < w ∨ optimum_height < h then
      (truncQ ((h : ℚ) * ratio), h)
    else (optimum_width, optimum_height)
  match resample src p.1 p.2 "bicubic" with
  | .error e => .error e
  | .ok resized => crop resized w h "top-left" 0 0

/-- Embedding of `editor::resize_fit` (lines 392–408): base the size on the
width, fall back to the height when either dimension overflows the box,
then resample. -/
def resize_fit (src : Image) (w h : Int) : Except String Image :=
  let ratio : ℚ := (src.width : ℚ) / (src.height : ℚ)
  let resize_width := w
  let resize_height := roundAway ((w : ℚ) / ratio)
  let p :=
    if resize_width > w ∨ resize_height > h then
      (roundAway ((h : ℚ) * ratio), h)
    else (resize_width, resize_height)
  resample src p.1 p.2 "bicubic"

/-- Embedding of `editor::resize` (lines 241–268): exact string dispatch on
the resize mode. -/
def resize (src : Image) (w h : Int) (mode : String) : Except String Image :=
  if mode = "exact" then resize_exact src w h
  else if mode = "exact_width" then resize_exact_width src w
  else if mode = "exact_height" then resize_exact_height src h
  else if mode = "fit" then resize_fit src w h
  else if mode = "fill" then resize_fill src w h
  else .error ("Invalid resize mode \x27" ++ mode ++ "\x27.")

/-- Concrete 10×10 uniform grey image used by witness theorems. -/
def imgBase : Image := ⟨10, 10, fun _ _ => Color.rgba 100 100 100 255⟩

/-- Concrete 5×5 uniform blue image used by witness theorems. -/
def imgOver : Image := ⟨5, 5, fun _ _ => Color.rgba 0 0 255 255⟩

/-- Concrete 4×3 image with position-dependent pixels used by witness
theorems. -/
def imgSmall : Image :=
  ⟨4, 3, fun x y => Color.rgba ((x + y).toNat % 256) 7 9 255⟩

/-- Definition following the words of claim C5: the effective behaviour of
`resize_fill` once the dead disjunct `optimum_width < w` is removed — the
height-based recomputation happens exactly when `round(w / ratio) < h`,
then the resampled image is cropped from the top-left to `(w, h)`. -/
def resize_fill_effective (src : Image) (w h : Int) : Except String Image :=
  let ratio : ℚ := (src.width : ℚ) / (src.height : ℚ)
  let p :=
    if roundAway ((w : ℚ) / ratio) < h then (truncQ ((h : ℚ) * ratio), h)
    else (w, roundAway ((w : ℚ) / ratio))
  match resample src p.1 p.2 "bicubic" with
  | .error e => .error e
  | .ok resized => crop resized w h "top-left" 0 0

/-- Induction principle for `foldRangeE`: an index-dependent invariant that
every step preserves yields success of the whole loop together with the
final invariant. -/
theorem foldRangeE_ind {α : Type} (f : α → Nat → Except String α)
    (Q : Nat → α → Prop) :
    ∀ (n : Nat) (a : α), Q 0 a →
      (∀ i b, i < n → Q i b → ∃ c, f b i = .ok c ∧ Q (i + 1) c) →
      ∃ b, foldRangeE f n a = .ok b ∧ Q n b := by
  intro n
  induction n with
  | zero => exact fun a h0 _ => ⟨a, rfl, h0⟩
  | succ n ih =>
    intro a h0 hstep
    obtain ⟨b, hb, hQ⟩ :=
      ih a h0 (fun i c hi hQc => hstep i c (Nat.lt_succ_of_lt hi) hQc)
    obtain ⟨c, hc, hQc⟩ := hstep n b (Nat.lt_succ_self n) hQ
    exact ⟨c, by simp [foldRangeE, hb, hc], hQc⟩

/-- Preservation principle for `foldRangeE`: a property of the accumulator
that every successful step preserves holds of a successful result. -/
theorem foldRangeE_pres {α : Type} (f : α → Nat → Except String α) (P : α → Prop)
    (hstep : ∀ b i c, P b → f b i = .ok c → P c) :
    ∀ (n : Nat) (a b : α), P a → foldRangeE f n a = .ok b → P b := by
  intro n
  induction n with
  | zero =>
    intro a b ha h
    simp only [foldRangeE] at h
    cases h
    exact ha
  | succ n ih =>
    intro a b ha h
    simp only [foldRangeE] at h
    cases heq : foldRangeE f n a with
    | error e => rw [heq] at h; cases h
    | ok b' => rw [heq] at h; exact hstep b' n b (ih a b' ha heq) h

/-- A successful `set_pixel` preserves the dimensions of the buffer. -/
theorem set_pixel_dims (img : Image) (x y : Int) (c : Color) (r : Image)
    (h : set_pixel img x y c = .ok r) :
    r.width = img.width ∧ r.height = img.height := by
  unfold set_pixel at h
  split at h
  · cases h; exact ⟨rfl, rfl⟩
  · cases h

/-- A successful `set_pixel` writes the given colour at the given
coordinate and leaves every other coordinate unchanged. -/
theorem set_pixel_pix (img : Image) (x y : Int) (c : Color) (r : Image)
    (h : set_pixel img x y c = .ok r) :
    ∀ a b, r.pix a b = if a = x ∧ b = y then c else img.pix a b := by
  unfold set_pixel at h
  split at h
  · cases h; intro a b; rfl
  · cases h

/-- A `set_pixel` at a coordinate inside the buffer succeeds. -/
theorem set_pixel_ok (img : Image) (x y : Int) (c : Color)
    (hx0 : 0 ≤ x) (hx1 : x < img.width) (hy0 : 0 ≤ y) (hy1 : y < img.height) :
    set_pixel img x y c =
      .ok ⟨img.width, img.height, fun a b => if a = x ∧ b = y then c else img.pix a b⟩ := by
  unfold set_pixel
  rw [if_pos ⟨hx0, hx1, hy0, hy1⟩]

/-- Main characterisation of `writeLoop`: when the colour computation
succeeds everywhere in the rectangle and every translated write coordinate
is inside the initial buffer, the loop succeeds, preserves the dimensions,
and the written rectangle carries the computed colours. -/
theorem writeLoop_ok (sx ex sy ey tx ty : Int)
    (g : Int → Int → Except String Color) (v : Int → Int → Color) (init : Image)
    (hg : ∀ x y, sx ≤ x → x < ex → sy ≤ y → y < ey → g x y = .ok (v x y))
    (hb : ∀ x y, sx ≤ x → x < ex → sy ≤ y → y < ey →
      0 ≤ x + tx ∧ x + tx < init.width ∧ 0 ≤ y + ty ∧ y + ty < init.height) :
    ∃ r, writeLoop sx ex sy ey tx ty g init = .ok r ∧ r.width = init.width ∧
      r.height = init.height ∧
      ∀ x y, sx ≤ x → x < ex → sy ≤ y → y < ey →
        r.pix (x + tx) (y + ty) = v x y := by
  have main := foldRangeE_ind
    (f := fun img j =>
      foldRangeE
        (fun img2 i =>
          match g (sx + (i : Int)) (sy + (j : Int)) with
          | .ok c => set_pixel img2 (sx + (i : Int) + tx) (sy + (j : Int) + ty) c
          | .error e => .error e)
        (ex - sx).toNat img)
    (Q := fun j img => img.width = init.width ∧ img.height = init.height ∧
      ∀ x y, sx ≤ x → x < ex → sy ≤ y → y < sy + (j : Int) →
        img.pix (x + tx) (y + ty) = v x y)
    (ey - sy).toNat init
    ⟨rfl, rfl, by intro x y _ _ h1 h2; omega⟩
    ?_
  · obtain ⟨r, hr, hwid, hhei, hpix⟩ := main
    refine ⟨r, hr, hwid, hhei, fun x y hx0 hx1 hy0 hy1 => hpix x y hx0 hx1 hy0 ?_⟩
    omega
  · intro j b hj hQ
    obtain ⟨hbw, hbh, hrows⟩ := hQ
    have hjlt : sy + (j : Int) < ey := by omega
    have hjle : sy ≤ sy + (j : Int) := by omega
    have inner := foldRangeE_ind
      (f := fun img2 i =>
        match g (sx + (i : Int)) (sy + (j : Int)) with
        | .ok c => set_pixel img2 (sx + (i : Int) + tx) (sy + (j : Int) + ty) c
        | .error e => .error e)
      (Q := fun i img => img.width = init.width ∧ img.height = init.height ∧
        (∀ x y, sx ≤ x → x < ex → sy ≤ y → y < sy + (j : Int) →
          img.pix (x + tx) (y + ty) = v x y) ∧
        ∀ x, sx ≤ x → x < sx + (i : Int) →
          img.pix (x + tx) (sy + (j : Int) + ty) = v x (sy + (j : Int)))
      (ex - sx).toNat b
      ⟨hbw, hbh, hrows, by intro x h1 h2; omega⟩
      ?_
    · obtain ⟨c, hc, hcw, hch, hcrows, hcrow⟩ := inner
      refine ⟨c, hc, hcw, hch, fun x y hx0 hx1 hy0 hy1 => ?_⟩
      rcases lt_or_eq_of_le (by omega : y ≤ sy + (j : Int)) with hlt | heq
      · exact hcrows x y hx0 hx1 hy0 hlt
      · subst heq
        exact hcrow x hx0 (by omega)
    · intro i b2 hi hQ2
      obtain ⟨hb2w, hb2h, hb2rows, hb2row⟩ := hQ2
      have hxle : sx ≤ sx + (i : Int) := by omega
      have hxlt : sx + (i : Int) < ex := by omega
      dsimp only
      rw [hg (sx + (i : Int)) (sy + (j : Int)) hxle hxlt hjle hjlt]
      have hbnd := hb (sx + (i : Int)) (sy + (j : Int)) hxle hxlt hjle hjlt
      have hset := set_pixel_ok b2 (sx + (i : Int) + tx) (sy + (j : Int) + ty)
        (v (sx + (i : Int)) (sy + (j : Int)))
        (by omega) (by rw [hb2w]; omega) (by omega) (by rw [hb2h]; omega)
      refine ⟨_, hset, hb2w, hb2h, ?_, ?_⟩
      · intro x y hx0 hx1 hy0 hy1
        have hne : ¬(x + tx = sx + (i : Int) + tx ∧ y + ty = sy + (j : Int) + ty) := by
          intro hcon
          omega
        simp only [hne, if_false]
        exact hb2rows x y hx0 hx1 hy0 hy1
      · intro x hx0 hx1
        by_cases hxeq : x = sx + (i : Int)
        · subst hxeq
          simp
        · have hne : ¬(x + tx = sx + (i : Int) + tx ∧
              sy + (j : Int) + ty = sy + (j : Int) + ty) := by
            intro hcon
            omega
          dsimp only
          rw [if_neg hne]
          exact hb2row x hx0 (by omega)

/-- A successful `writeLoop` preserves the dimensions of its initial
buffer, whatever the colour computation does. -/
theorem writeLoop_dims (sx ex sy ey tx ty : Int)
    (g : Int → Int → Except String Color) (init r : Image)
    (h : writeLoop sx ex sy ey tx ty g init = .ok r) :
    r.width = init.width ∧ r.height = init.height := by
  refine foldRangeE_pres _ (fun img => img.width = init.width ∧ img.height = init.height)
    ?_ (ey - sy).toNat init r ⟨rfl, rfl⟩ h
  intro b j c hP hstep
  refine foldRangeE_pres _ (fun img => img.width = init.width ∧ img.height = init.height)
    ?_ (ex - sx).toNat b c hP hstep
  intro b2 i c2 hP2 hstep2
  cases hgv : g (sx + (i : Int)) (sy + (j : Int)) with
  | ok col =>
    rw [hgv] at hstep2
    have := set_pixel_dims b2 (sx + (i : Int) + tx) (sy + (j : Int) + ty) col c2 hstep2
    exact ⟨this.1.trans hP2.1, this.2.trans hP2.2⟩
  | error e => rw [hgv] at hstep2; cases hstep2

/-- ASCII lowercasing of a single character is idempotent. -/
theorem lowerChar_idem (c : Char) : lowerChar (lowerChar c) = lowerChar c := by
  by_cases h : 65 ≤ c.toNat ∧ c.toNat ≤ 90
  · have he : lowerChar c = Char.ofNat (c.toNat + 32) := by
      unfold lowerChar
      rw [if_pos h]
    rw [he]
    have h1 := h.1
    have h2 := h.2
    generalize c.toNat = n at h1 h2
    interval_cases n <;> decide
  · have he : lowerChar c = c := by
      unfold lowerChar
      rw [if_neg h]
    rw [he]
    exact he

/-- ASCII lowercasing of a string is idempotent. -/
theorem lowerStr_idem (s : String) : lowerStr (lowerStr s) = lowerStr s := by
  show String.mk (List.map lowerChar (List.map lowerChar s.data)) =
    String.mk (List.map lowerChar s.data)
  congr 1
  induction s.data with
  | nil => rfl
  | cons c t ih => simp [ih, lowerChar_idem]

/-- The nearest-neighbour source coordinate `floor(x * (W / d))` lies
inside `[0, W)` whenever `0 < W` and `0 ≤ x < d`. -/
theorem floor_scale_bounds (W d x : Int) (hW : 0 < W) (h0 : 0 ≤ x) (hx : x < d) :
    0 ≤ Int.floor ((x : ℚ) * ((W : ℚ) / (d : ℚ))) ∧
      Int.floor ((x : ℚ) * ((W : ℚ) / (d : ℚ))) < W := by
  have hd : 0 < d := lt_of_le_of_lt h0 hx
  have hdQ : (0 : ℚ) < (d : ℚ) := by exact_mod_cast hd
  have hWQ : (0 : ℚ) < (W : ℚ) := by exact_mod_cast hW
  have hxQ : (0 : ℚ) ≤ (x : ℚ) := by exact_mod_cast h0
  constructor
  · apply Int.le_floor.mpr
    push_cast
    positivity
  · apply Int.floor_lt.mpr
    rw [mul_div_assoc', div_lt_iff₀ hdQ]
    have hxd : (x : ℚ) ≤ (d : ℚ) - 1 := by
      have hle : x ≤ d - 1 := by omega
      exact_mod_cast hle
    nlinarith

/-- Characterisation of `interpolate_nearest` for a source with positive
dimensions: it always succeeds, produces exactly the requested dimensions,
and each destination pixel is the nearest-neighbour source sample. -/
theorem interpolate_nearest_ok (src : Image) (w h : Int)
    (hW : 0 < src.width) (hH : 0 < src.height) :
    ∃ r, interpolate_nearest src w h = .ok r ∧ r.width = w ∧ r.height = h ∧
      ∀ x y, 0 ≤ x → x < w → 0 ≤ y → y < h →
        r.pix x y = src.pix (Int.floor ((x : ℚ) * ((src.width : ℚ) / (w : ℚ))))
          (Int.floor ((y : ℚ) * ((src.height : ℚ) / (h : ℚ)))) := by
  obtain ⟨r, hr, hrw, hrh, hpix⟩ := writeLoop_ok 0 w 0 h 0 0
    (fun x y => get_pixel src (Int.floor ((x : ℚ) * ((src.width : ℚ) / (w : ℚ))))
      (Int.floor ((y : ℚ) * ((src.height : ℚ) / (h : ℚ)))))
    (fun x y => src.pix (Int.floor ((x : ℚ) * ((src.width : ℚ) / (w : ℚ))))
      (Int.floor ((y : ℚ) * ((src.height : ℚ) / (h : ℚ)))))
    (Image.blank w h)
    (by
      intro x y hx0 hx1 hy0 hy1
      have hxb := floor_scale_bounds src.width w x hW hx0 hx1
      have hyb := floor_scale_bounds src.height h y hH hy0 hy1
      dsimp only
      unfold get_pixel
      rw [if_pos ⟨hxb.1, hxb.2, hyb.1, hyb.2⟩])
    (by
      intro x y hx0 hx1 hy0 hy1
      simp only [Image.blank]
      omega)
  refine ⟨r, hr, hrw, hrh, fun x y hx0 hx1 hy0 hy1 => ?_⟩
  have hv := hpix x y hx0 hx1 hy0 hy1
  rwa [add_zero, add_zero] at hv

/-- Characterisation of the pixel-copy loop of `crop` when the clipped
rectangle fits inside the source: the loop succeeds and copies the
rectangle starting at `(ox, oy)`. -/
theorem crop_body_ok (src : Image) (ox oy w0 h0 : Int)
    (hox : 0 ≤ ox) (hoy : 0 ≤ oy)
    (hw : ox + w0 ≤ src.width) (hh : oy + h0 ≤ src.height) :
    ∃ r, writeLoop 0 (Image.blank w0 h0).width 0 (Image.blank w0 h0).height 0 0
        (fun x y =>
          match get_pixel src (ox + x) (oy + y) with
          | .ok p => .ok (Color.rgba p.r p.g p.b p.a)
          | .error e => .error e)
        (Image.blank w0 h0) = .ok r ∧
      r.width = w0 ∧ r.height = h0 ∧
      ∀ x y, 0 ≤ x → x < w0 → 0 ≤ y → y < h0 →
        r.pix x y = src.pix (ox + x) (oy + y) := by
  obtain ⟨r, hr, hrw, hrh, hpix⟩ := writeLoop_ok 0 (Image.blank w0 h0).width 0
    (Image.blank w0 h0).height 0 0
    (fun x y =>
      match get_pixel src (ox + x) (oy + y) with
      | .ok p => .ok (Color.rgba p.r p.g p.b p.a)
      | .error e => .error e)
    (fun x y => src.pix (ox + x) (oy + y))
    (Image.blank w0 h0)
    (by
      intro x y hx0 hx1 hy0 hy1
      have hx1w : x < w0 := hx1
      have hy1h : y < h0 := hy1
      dsimp only
      unfold get_pixel
      rw [if_pos ⟨by omega, by omega, by omega, by omega⟩]
      rfl)
    (by
      intro x y hx0 hx1 hy0 hy1
      simp only [Image.blank] at hx1 hy1 ⊢
      omega)
  refine ⟨r, hr, hrw, hrh, fun x y hx0 hx1 hy0 hy1 => ?_⟩
  have hv := hpix x y hx0 hx1 hy0 hy1
  rwa [add_zero, add_zero] at hv

/-- Full characterisation of `crop` once the position resolver has
answered: the crop succeeds, its dimensions are the requested ones clipped
against the source after clamping the offsets at zero, and the copied
rectangle is pixel-identical to the corresponding source rectangle. -/
theorem crop_ok_of_getXY (src : Image) (cw ch : Int) (pos : String)
    (dx dy ox0 oy0 : Int)
    (hpos : Position.getXY pos dx dy src.width src.height cw ch = .ok (ox0, oy0)) :
    ∃ r, crop src cw ch pos dx dy = .ok r ∧
      r.width = (if (if ox0 < 0 then 0 else ox0) + cw > src.width then src.width
        else (if ox0 < 0 then 0 else ox0) + cw) - (if ox0 < 0 then 0 else ox0) ∧
      r.height = (if (if oy0 < 0 then 0 else oy0) + ch > src.height then src.height
        else (if oy0 < 0 then 0 else oy0) + ch) - (if oy0 < 0 then 0 else oy0) ∧
      ∀ x y, 0 ≤ x → x < r.width → 0 ≤ y → y < r.height →
        r.pix x y = src.pix ((if ox0 < 0 then 0 else ox0) + x)
          ((if oy0 < 0 then 0 else oy0) + y) := by
  unfold crop
  rw [hpos]
  dsimp only
  have hox : (0 : Int) ≤ if ox0 < 0 then 0 else ox0 := by split <;> omega
  have hoy : (0 : Int) ≤ if oy0 < 0 then 0 else oy0 := by split <;> omega
  have hw : (if ox0 < 0 then 0 else ox0) +
      ((if (if ox0 < 0 then 0 else ox0) + cw > src.width then src.width
        else (if ox0 < 0 then 0 else ox0) + cw) - (if ox0 < 0 then 0 else ox0)) ≤
      src.width := by
    split <;> omega
  have hh : (if oy0 < 0 then 0 else oy0) +
      ((if (if oy0 < 0 then 0 else oy0) + ch > src.height then src.height
        else (if oy0 < 0 then 0 else oy0) + ch) - (if oy0 < 0 then 0 else oy0)) ≤
      src.height := by
    split <;> omega
  obtain ⟨r, hr, hrw, hrh, hpix⟩ := crop_body_ok src (if ox0 < 0 then 0 else ox0)
    (if oy0 < 0 then 0 else oy0) _ _ hox hoy hw hh
  refine ⟨r, hr, hrw, hrh, fun x y hx0 hx1 hy0 hy1 => hpix x y hx0 ?_ hy0 ?_⟩
  · rw [hrw] at hx1
    exact hx1
  · rw [hrh] at hy1
    exact hy1

/-- Claim C1: for every base, overlay, blend mode, opacity, anchor and
offsets, if the resolved translated overlay rectangle does not intersect
the base rectangle (offset_x ≥ base.width, or offset_x + overlay.width ≤ 0,
or offset_y ≥ base.height, or offset_y + overlay.height ≤ 0), then `blend`
returns the "outside the canvas" error and produces no output image. -/
theorem blend_out_of_canvas_errors (image1 image2 : Image) (blend_mode : String)
    (opacity : ℚ) (position : String) (dx dy ox oy : Int)
    (hpos : Position.getXY position dx dy image1.width image1.height
      image2.width image2.height = .ok (ox, oy))
    (hout : ox ≥ image1.width ∨ ox + image2.width ≤ 0 ∨ oy ≥ image1.height ∨
      oy + image2.height ≤ 0) :
    blend image1 image2 blend_mode opacity position dx dy =
      .error "Invalid blending. Image 2 is outside the canvas." := by
  simp only [blend]
  rw [hpos]
  dsimp only
  rw [if_pos hout]

/-- Witness for C1: a 5×5 overlay anchored top-left with raw offsets
(20, 20) on a 10×10 base resolves to (20, 20), which is entirely outside
the canvas, and blending fails. -/
theorem blend_out_of_canvas_errors_witness :
    blend imgBase imgOver "normal" 1 "top-left" 20 20 =
      .error "Invalid blending. Image 2 is outside the canvas." :=
  blend_out_of_canvas_errors imgBase imgOver "normal" 1 "top-left" 20 20 20 20
    rfl (by decide)

/-- Claim C2: whenever the overlap test of `blend` passes, the clipped loop
bounds map every loop coordinate `(x, y)` to a valid pixel of the overlay
and `(offset_x + x, offset_y + y)` to a valid pixel of the base; hence the
blend loop cannot fail with an out-of-bounds pixel access, for any
per-pixel blend function and any opacity. -/
theorem blend_loop_bounds_safe (image1 image2 : Image) (position : String)
    (dx dy ox oy : Int)
    (hpos : Position.getXY position dx dy image1.width image1.height
      image2.width image2.height = .ok (ox, oy))
    (hov : ¬(ox ≥ image1.width ∨ ox + image2.width ≤ 0 ∨ oy ≥ image1.height ∨
      oy + image2.height ≤ 0)) :
    (∀ x y, clipStart ox ≤ x → x < clipEnd image2.width ox image1.width →
      clipStart oy ≤ y → y < clipEnd image2.height oy image1.height →
      0 ≤ x ∧ x < image2.width ∧ 0 ≤ y ∧ y < image2.height ∧
      0 ≤ ox + x ∧ ox + x < image1.width ∧ 0 ≤ oy + y ∧ oy + y < image1.height) ∧
    ∀ f opacity, ∃ r, blendLoop f image1 image2 (clipStart oy)
      (clipEnd image2.height oy image1.height) (clipStart ox)
      (clipEnd image2.width ox image1.width) ox oy opacity = .ok r := by
  have hbounds : ∀ x y, clipStart ox ≤ x → x < clipEnd image2.width ox image1.width →
      clipStart oy ≤ y → y < clipEnd image2.height oy image1.height →
      0 ≤ x ∧ x < image2.width ∧ 0 ≤ y ∧ y < image2.height ∧
      0 ≤ ox + x ∧ ox + x < image1.width ∧ 0 ≤ oy + y ∧ oy + y < image1.height := by
    intro x y hx0 hx1 hy0 hy1
    simp only [clipStart, clipEnd] at hx0 hx1 hy0 hy1
    split_ifs at hx0 hx1 hy0 hy1 <;> omega
  refine ⟨hbounds, fun f opacity => ?_⟩
  obtain ⟨r, hr, _, _, _⟩ := writeLoop_ok (clipStart ox)
    (clipEnd image2.width ox image1.width) (clipStart oy)
    (clipEnd image2.height oy image1.height) ox oy
    (fun x y =>
      match get_pixel image1 (x + ox) (y + oy), get_pixel image2 x y with
      | .ok b, .ok o => .ok (mixPixel f b o opacity)
      | .error e, _ => .error e
      | .ok _, .error e => .error e)
    (fun x y => mixPixel f (image1.pix (x + ox) (y + oy)) (image2.pix x y) opacity)
    (copy image1)
    (by
      intro x y hx0 hx1 hy0 hy1
      have hbb := hbounds x y hx0 hx1 hy0 hy1
      dsimp only
      unfold get_pixel
      rw [if_pos ⟨by omega, by omega, by omega, by omega⟩,
        if_pos ⟨by omega, by omega, by omega, by omega⟩])
    (by
      intro x y hx0 hx1 hy0 hy1
      have hbb := hbounds x y hx0 hx1 hy0 hy1
      simp only [copy]
      omega)
  exact ⟨r, hr⟩

/-- Witness for C2: a 5×5 overlay at resolved offset (−2, −2) on a 10×10
base overlaps the canvas, and the clipped normal blend loop succeeds. -/
theorem blend_loop_bounds_safe_witness :
    ∃ r, blendLoop channelNormal imgBase imgOver (clipStart (-2))
      (clipEnd imgOver.height (-2) imgBase.height) (clipStart (-2))
      (clipEnd imgOver.width (-2) imgBase.width) (-2) (-2) 1 = .ok r :=
  (blend_loop_bounds_safe imgBase imgOver "top-left" (-2) (-2) (-2) (-2) rfl
    (by decide)).2 channelNormal 1

/-- Claim C9: `fill` returns an image with the source's dimensions in
which every pixel equals the given colour, independent of the source's
pixel contents. -/
theorem fill_uniform (src : Image) (color : Color) :
    ∃ r, fill src color = .ok r ∧ r.width = src.width ∧ r.height = src.height ∧
      ∀ x y, 0 ≤ x → x < r.width → 0 ≤ y → y < r.height →
        get_pixel r x y = .ok color := by
  obtain ⟨r, hr, hrw, hrh, hpix⟩ := writeLoop_ok 0
    (Image.blank src.width src.height).width 0
    (Image.blank src.width src.height).height 0 0 (fun _ _ => .ok color)
    (fun _ _ => color) (Image.blank src.width src.height)
    (fun _ _ _ _ _ _ => rfl)
    (by
      intro x y hx0 hx1 hy0 hy1
      simp only [Image.blank] at hx1 hy1 ⊢
      omega)
  refine ⟨r, hr, hrw, hrh, fun x y hx0 hx1 hy0 hy1 => ?_⟩
  have hx1b : x < (Image.blank src.width src.height).width := by
    rw [← hrw]
    exact hx1
  have hy1b : y < (Image.blank src.width src.height).height := by
    rw [← hrh]
    exact hy1
  have hv := hpix x y hx0 hx1b hy0 hy1b
  rw [add_zero, add_zero] at hv
  unfold get_pixel
  rw [if_pos ⟨hx0, hx1, hy0, hy1⟩, hv]

/-- Witness for C9 at a concrete image and colour. -/
theorem fill_uniform_witness :
    ∃ r, fill imgSmall (Color.rgba 9 8 7 6) = .ok r ∧ r.width = imgSmall.width ∧
      r.height = imgSmall.height ∧
      ∀ x y, 0 ≤ x → x < r.width → 0 ≤ y → y < r.height →
        get_pixel r x y = .ok (Color.rgba 9 8 7 6) :=
  fill_uniform imgSmall (Color.rgba 9 8 7 6)

/-- Claim C3: a successful `crop` never exceeds the requested dimensions
nor the source dimensions; and a top-left crop with offsets (0, 0) and
requested dimensions within the source returns exactly the requested
dimensions with each result pixel `(x, y)` equal to source pixel
`(x, y)`. -/
theorem crop_dims_and_topleft (src : Image) (cw ch : Int) (pos : String)
    (dx dy : Int) (hcw : 0 ≤ cw) (hch : 0 ≤ ch) :
    (∀ img, crop src cw ch pos dx dy = .ok img →
      img.width ≤ cw ∧ img.width ≤ src.width ∧
      img.height ≤ ch ∧ img.height ≤ src.height) ∧
    (cw ≤ src.width → ch ≤ src.height →
      ∃ img, crop src cw ch "top-left" 0 0 = .ok img ∧ img.width = cw ∧
        img.height = ch ∧ ∀ x y, 0 ≤ x → x < cw → 0 ≤ y → y < ch →
          get_pixel img x y = get_pixel src x y) := by
  constructor
  · intro img himg
    cases hpos : Position.getXY pos dx dy src.width src.height cw ch with
    | error e =>
      unfold crop at himg
      rw [hpos] at himg
      dsimp only at himg
      exact absurd himg (by simp)
    | ok p =>
      obtain ⟨ox0, oy0⟩ := p
      obtain ⟨r, hr, hrw, hrh, _⟩ := crop_ok_of_getXY src cw ch pos dx dy ox0 oy0 hpos
      rw [hr] at himg
      injection himg with heq
      subst heq
      rw [hrw, hrh]
      split_ifs <;> omega
  · intro hcwle hchle
    have hpos : Position.getXY "top-left" 0 0 src.width src.height cw ch =
      .ok (0, 0) := rfl
    obtain ⟨r, hr, hrw, hrh, hpix⟩ :=
      crop_ok_of_getXY src cw ch "top-left" 0 0 0 0 hpos
    have hw' : r.width = cw := by
      rw [hrw]
      split_ifs <;> omega
    have hh' : r.height = ch := by
      rw [hrh]
      split_ifs <;> omega
    refine ⟨r, hr, hw', hh', fun x y hx0 hx1 hy0 hy1 => ?_⟩
    have hv := hpix x y hx0 (by rw [hw']; exact hx1) hy0 (by rw [hh']; exact hy1)
    have hzx : ((if (0 : Int) < 0 then 0 else 0) + x) = x := by norm_num
    have hzy : ((if (0 : Int) < 0 then 0 else 0) + y) = y := by norm_num
    rw [hzx, hzy] at hv
    unfold get_pixel
    rw [if_pos ⟨hx0, by omega, hy0, by omega⟩, if_pos ⟨hx0, by omega, hy0, by omega⟩, hv]

/-- Witness for C3: a 2×2 top-left crop of the concrete 4×3 image has
exactly the requested dimensions and copies the source pixels. -/
theorem crop_dims_and_topleft_witness :
    ∃ img, crop imgSmall 2 2 "top-left" 0 0 = .ok img ∧ img.width = 2 ∧
      img.height = 2 ∧ ∀ x y, 0 ≤ x → x < 2 → 0 ≤ y → y < 2 →
        get_pixel img x y = get_pixel imgSmall x y :=
  (crop_dims_and_topleft imgSmall 2 2 "center" 0 0 (by decide) (by decide)).2
    (by decide) (by decide)

/-- Claim C7: resampling with "bilinear", with "bicubic" and with
"nearest" all return the same result — the nearest-neighbour resampling in
which destination pixel `(x, y)` is taken from source pixel
`(floor(x * src.width / w), floor(y * src.height / h))`. -/
theorem resample_methods_all_nearest (src : Image) (w h : Int)
    (hW : 0 < src.width) (hH : 0 < src.height) :
    resample src w h "bilinear" = resample src w h "nearest" ∧
    resample src w h "bicubic" = resample src w h "nearest" ∧
    ∃ r, resample src w h "nearest" = .ok r ∧ r.width = w ∧ r.height = h ∧
      ∀ x y, 0 ≤ x → x < w → 0 ≤ y → y < h →
        get_pixel r x y =
          get_pixel src (Int.floor ((x : ℚ) * ((src.width : ℚ) / (w : ℚ))))
            (Int.floor ((y : ℚ) * ((src.height : ℚ) / (h : ℚ)))) := by
  refine ⟨rfl, rfl, ?_⟩
  obtain ⟨r, hr, hrw, hrh, hpix⟩ := interpolate_nearest_ok src w h hW hH
  refine ⟨r, hr, hrw, hrh, fun x y hx0 hx1 hy0 hy1 => ?_⟩
  have hxb := floor_scale_bounds src.width w x hW hx0 hx1
  have hyb := floor_scale_bounds src.height h y hH hy0 hy1
  unfold get_pixel
  rw [if_pos ⟨hx0, by rw [hrw]; exact hx1, hy0, by rw [hrh]; exact hy1⟩,
    if_pos ⟨hxb.1, hxb.2, hyb.1, hyb.2⟩, hpix x y hx0 hx1 hy0 hy1]

/-- Witness for C7 at the concrete 4×3 image resampled to 2×2. -/
theorem resample_methods_all_nearest_witness :
    resample imgSmall 2 2 "bilinear" = resample imgSmall 2 2 "nearest" ∧
    resample imgSmall 2 2 "bicubic" = resample imgSmall 2 2 "nearest" ∧
    ∃ r, resample imgSmall 2 2 "nearest" = .ok r ∧ r.width = 2 ∧ r.height = 2 ∧
      ∀ x y, 0 ≤ x → x < 2 → 0 ≤ y → y < 2 →
        get_pixel r x y =
          get_pixel imgSmall (Int.floor ((x : ℚ) * ((imgSmall.width : ℚ) / (2 : ℚ))))
            (Int.floor ((y : ℚ) * ((imgSmall.height : ℚ) / (2 : ℚ)))) :=
  resample_methods_all_nearest imgSmall 2 2 (by decide) (by decide)

/-- Claim C8: `resize` with mode "exact" succeeds and returns exactly the
requested dimensions, regardless of the source aspect ratio. -/
theorem resize_exact_mode_dims (src : Image) (w h : Int) (hW : 0 < src.width)
    (hH : 0 < src.height) (hw : 0 < w) (hh : 0 < h) :
    ∃ r, resize src w h "exact" = .ok r ∧ r.width = w ∧ r.height = h := by
  obtain ⟨r, hr, hrw, hrh, _⟩ := interpolate_nearest_ok src w h hW hH
  exact ⟨r, hr, hrw, hrh⟩

/-- Witness for C8 at the concrete 4×3 image resized to 7×5. -/
theorem resize_exact_mode_dims_witness :
    ∃ r, resize imgSmall 7 5 "exact" = .ok r ∧ r.width = 7 ∧ r.height = 5 :=
  resize_exact_mode_dims imgSmall 7 5 (by decide) (by decide) (by decide) (by decide)

/-- Claim C6: `resize_exact_width` produces width `w` and height
`round(w / (src.width / src.height))` rounded to nearest, while
`resize_exact_height` produces height `h` and width
`trunc(h * (src.width / src.height))` truncated toward zero. -/
theorem resize_exact_width_height_rounding (src : Image) (w h : Int)
    (hW : 0 < src.width) (hH : 0 < src.height) :
    (∃ r, resize_exact_width src w = .ok r ∧ r.width = w ∧
      r.height = roundAway ((w : ℚ) / ((src.width : ℚ) / (src.height : ℚ)))) ∧
    (∃ r, resize_exact_height src h = .ok r ∧ r.height = h ∧
      r.width = truncQ ((h : ℚ) * ((src.width : ℚ) / (src.height : ℚ)))) := by
  constructor
  · obtain ⟨r, hr, hrw, hrh, _⟩ := interpolate_nearest_ok src w
      (roundAway ((w : ℚ) / ((src.width : ℚ) / (src.height : ℚ)))) hW hH
    exact ⟨r, hr, hrw, hrh⟩
  · obtain ⟨r, hr, hrw, hrh, _⟩ := interpolate_nearest_ok src
      (truncQ ((h : ℚ) * ((src.width : ℚ) / (src.height : ℚ)))) h hW hH
    exact ⟨r, hr, hrh, hrw⟩

/-- Witness for C6 at the concrete 4×3 image with targets 5 and 4. -/
theorem resize_exact_width_height_rounding_witness :
    (∃ r, resize_exact_width imgSmall 5 = .ok r ∧ r.width = 5 ∧
      r.height = roundAway ((5 : ℚ) / ((imgSmall.width : ℚ) / (imgSmall.height : ℚ)))) ∧
    (∃ r, resize_exact_height imgSmall 4 = .ok r ∧ r.height = 4 ∧
      r.width = truncQ ((4 : ℚ) * ((imgSmall.width : ℚ) / (imgSmall.height : ℚ)))) :=
  resize_exact_width_height_rounding imgSmall 5 4 (by decide) (by decide)

/-- Claim C4: `resize_fit` returns an image no wider than `w` and no
taller than `h` whenever the source dimensions and the requested box are
positive. -/
theorem resize_fit_within_box (src : Image) (w h : Int) (hW : 0 < src.width)
    (hH : 0 < src.height) (hw : 0 < w) (hh : 0 < h) :
    ∃ r, resize_fit src w h = .ok r ∧ r.width ≤ w ∧ r.height ≤ h := by
  have hWQ : (0 : ℚ) < (src.width : ℚ) := by exact_mod_cast hW
  have hHQ : (0 : ℚ) < (src.height : ℚ) := by exact_mod_cast hH
  have hwQ : (0 : ℚ) < (w : ℚ) := by exact_mod_cast hw
  have hhQ : (0 : ℚ) < (h : ℚ) := by exact_mod_cast hh
  have hratioPos : (0 : ℚ) < (src.width : ℚ) / (src.height : ℚ) := div_pos hWQ hHQ
  have heq : resize_fit src w h =
      resample src
        (if w > w ∨ roundAway ((w : ℚ) / ((src.width : ℚ) / (src.height : ℚ))) > h
          then (roundAway ((h : ℚ) * ((src.width : ℚ) / (src.height : ℚ))), h)
          else (w, roundAway ((w : ℚ) / ((src.width : ℚ) / (src.height : ℚ))))).1
        (if w > w ∨ roundAway ((w : ℚ) / ((src.width : ℚ) / (src.height : ℚ))) > h
          then (roundAway ((h : ℚ) * ((src.width : ℚ) / (src.height : ℚ))), h)
          else (w, roundAway ((w : ℚ) / ((src.width : ℚ) / (src.height : ℚ))))).2
        "bicubic" := rfl
  by_cases hc : roundAway ((w : ℚ) / ((src.width : ℚ) / (src.height : ℚ))) > h
  · rw [heq, if_pos (Or.inr hc)]
    obtain ⟨r, hr, hrw, hrh, _⟩ := interpolate_nearest_ok src
      (roundAway ((h : ℚ) * ((src.width : ℚ) / (src.height : ℚ)))) h hW hH
    refine ⟨r, hr, ?_, by rw [hrh]⟩
    rw [hrw]
    have hq0 : (0 : ℚ) ≤ (w : ℚ) / ((src.width : ℚ) / (src.height : ℚ)) :=
      le_of_lt (div_pos hwQ hratioPos)
    have hra : roundAway ((w : ℚ) / ((src.width : ℚ) / (src.height : ℚ))) =
        Int.floor ((w : ℚ) / ((src.width : ℚ) / (src.height : ℚ)) + 1/2) := by
      unfold roundAway
      rw [if_neg (by linarith)]
    have hqge : (h : ℚ) + 1/2 ≤ (w : ℚ) / ((src.width : ℚ) / (src.height : ℚ)) := by
      have hfl : (h + 1 : Int) ≤
          Int.floor ((w : ℚ) / ((src.width : ℚ) / (src.height : ℚ)) + 1/2) := by
        rw [← hra]
        omega
      have hcast := Int.le_floor.mp hfl
      push_cast at hcast
      linarith
    have hwge : ((h : ℚ) + 1/2) * ((src.width : ℚ) / (src.height : ℚ)) ≤ (w : ℚ) := by
      have hmul := mul_le_mul_of_nonneg_right hqge (le_of_lt hratioPos)
      rwa [div_mul_cancel₀ _ (ne_of_gt hratioPos)] at hmul
    have hp0 : (0 : ℚ) ≤ (h : ℚ) * ((src.width : ℚ) / (src.height : ℚ)) :=
      le_of_lt (mul_pos hhQ hratioPos)
    have hrb : roundAway ((h : ℚ) * ((src.width : ℚ) / (src.height : ℚ))) =
        Int.floor ((h : ℚ) * ((src.width : ℚ) / (src.height : ℚ)) + 1/2) := by
      unfold roundAway
      rw [if_neg (by linarith)]
    have hlt : Int.floor ((h : ℚ) * ((src.width : ℚ) / (src.height : ℚ)) + 1/2) <
        w + 1 := by
      apply Int.floor_lt.mpr
      push_cast
      nlinarith
    rw [hrb]
    omega
  · rw [heq, if_neg (by
      intro hor
      rcases hor with hlt | hgt
      · exact lt_irrefl w hlt
      · exact hc hgt)]
    obtain ⟨r, hr, hrw, hrh, _⟩ := interpolate_nearest_ok src w
      (roundAway ((w : ℚ) / ((src.width : ℚ) / (src.height : ℚ)))) hW hH
    refine ⟨r, hr, by rw [hrw], ?_⟩
    rw [hrh]
    omega

/-- Witness for C4: fitting the 4×3 image into a 2×2 box. -/
theorem resize_fit_within_box_witness :
    ∃ r, resize_fit imgSmall 2 2 = .ok r ∧ r.width ≤ 2 ∧ r.height ≤ 2 :=
  resize_fit_within_box imgSmall 2 2 (by decide) (by decide) (by decide) (by decide)

/-- Helper: a top-left crop with zero raw offsets succeeds and never
exceeds the requested dimensions. -/
theorem crop_topleft_le (src' : Image) (cw ch : Int) :
    ∃ r, crop src' cw ch "top-left" 0 0 = .ok r ∧ r.width ≤ cw ∧ r.height ≤ ch := by
  have hpos : Position.getXY "top-left" 0 0 src'.width src'.height cw ch =
    .ok (0, 0) := rfl
  obtain ⟨r, hr, hrw, hrh, _⟩ := crop_ok_of_getXY src' cw ch "top-left" 0 0 0 0 hpos
  refine ⟨r, hr, ?_, ?_⟩
  · rw [hrw]
    split_ifs <;> omega
  · rw [hrh]
    split_ifs <;> omega

/-- Claim C5: in `resize_fill` the disjunct `optimum_width < w` of the
branch condition is always false, so the height-based recomputation is
performed if and only if `round(w / ratio) < h`; and on success the result
is the resampled intermediate image cropped from the top-left to at most
`(w, h)`. -/
theorem resize_fill_dead_disjunct (src : Image) (w h : Int)
    (hW : 0 < src.width) (hH : 0 < src.height) :
    resize_fill src w h = resize_fill_effective src w h ∧
    ∃ r, resize_fill src w h = .ok r ∧ r.width ≤ w ∧ r.height ≤ h := by
  have hdead : resize_fill src w h = resize_fill_effective src w h := by
    simp only [resize_fill, resize_fill_effective, lt_self_iff_false, false_or]
  refine ⟨hdead, ?_⟩
  have heq : resize_fill_effective src w h =
      (match resample src
          (if roundAway ((w : ℚ) / ((src.width : ℚ) / (src.height : ℚ))) < h
            then (truncQ ((h : ℚ) * ((src.width : ℚ) / (src.height : ℚ))), h)
            else (w, roundAway ((w : ℚ) / ((src.width : ℚ) / (src.height : ℚ))))).1
          (if roundAway ((w : ℚ) / ((src.width : ℚ) / (src.height : ℚ))) < h
            then (truncQ ((h : ℚ) * ((src.width : ℚ) / (src.height : ℚ))), h)
            else (w, roundAway ((w : ℚ) / ((src.width : ℚ) / (src.height : ℚ))))).2
          "bicubic" with
        | .error e => .error e
        | .ok resized => crop resized w h "top-left" 0 0) := rfl
  by_cases hc : roundAway ((w : ℚ) / ((src.width : ℚ) / (src.height : ℚ))) < h
  · obtain ⟨mid, hmid, _, _, _⟩ := interpolate_nearest_ok src
      (truncQ ((h : ℚ) * ((src.width : ℚ) / (src.height : ℚ)))) h hW hH
    obtain ⟨r, hcr, hle1, hle2⟩ := crop_topleft_le mid w h
    refine ⟨r, ?_, hle1, hle2⟩
    rw [hdead, heq, if_pos hc]
    dsimp only
    rw [show resample src (truncQ ((h : ℚ) * ((src.width : ℚ) / (src.height : ℚ)))) h
        "bicubic" = .ok mid from hmid]
    exact hcr
  · obtain ⟨mid, hmid, _, _, _⟩ := interpolate_nearest_ok src w
      (roundAway ((w : ℚ) / ((src.width : ℚ) / (src.height : ℚ)))) hW hH
    obtain ⟨r, hcr, hle1, hle2⟩ := crop_topleft_le mid w h
    refine ⟨r, ?_, hle1, hle2⟩
    rw [hdead, heq, if_neg hc]
    dsimp only
    rw [show resample src w (roundAway ((w : ℚ) / ((src.width : ℚ) / (src.height : ℚ))))
        "bicubic" = .ok mid from hmid]
    exact hcr

/-- Witness for C5 at the concrete 4×3 image filled into a 2×2 box. -/
theorem resize_fill_dead_disjunct_witness :
    resize_fill imgSmall 2 2 = resize_fill_effective imgSmall 2 2 ∧
    ∃ r, resize_fill imgSmall 2 2 = .ok r ∧ r.width ≤ 2 ∧ r.height ≤ 2 :=
  resize_fill_dead_disjunct imgSmall 2 2 (by decide) (by decide)

/-- Claim C10: blend-mode matching is case-insensitive — `blend` with any
mode string behaves identically to `blend` with its lowercase — while
`resize` and `resample` match their mode and interpolation strings
exactly, so any other string yields the invalid-argument error. -/
theorem mode_matching_case_sensitivity (image1 image2 src : Image)
    (opacity : ℚ) (position : String) (dx dy w h : Int) (s : String) :
    blend image1 image2 s opacity position dx dy =
      blend image1 image2 (lowerStr s) opacity position dx dy ∧
    (s ≠ "exact" → s ≠ "exact_width" → s ≠ "exact_height" → s ≠ "fit" →
      s ≠ "fill" →
      resize src w h s = .error ("Invalid resize mode \x27" ++ s ++ "\x27.")) ∧
    (s ≠ "bilinear" → s ≠ "bicubic" → s ≠ "nearest" →
      resample src w h s = .error ("Invalid interpolation \x27" ++ s ++ "\x27")) := by
  refine ⟨?_, ?_, ?_⟩
  · simp only [blend, lowerStr_idem]
  · intro h1 h2 h3 h4 h5
    simp only [resize, h1, h2, h3, h4, h5, if_false]
  · intro h1 h2 h3
    simp only [resample, h1, h2, h3, if_false]

/-- Witness for C10: "NORMAL" blends like "normal", while "Exact" and
"Nearest" are rejected by the exact matchers. -/
theorem mode_matching_case_sensitivity_witness :
    blend imgBase imgOver "NORMAL" 1 "center" 0 0 =
      blend imgBase imgOver (lowerStr "NORMAL") 1 "center" 0 0 ∧
    resize imgSmall 2 2 "Exact" =
      .error ("Invalid resize mode \x27" ++ "Exact" ++ "\x27.") ∧
    resample imgSmall 2 2 "Nearest" =
      .error ("Invalid interpolation \x27" ++ "Nearest" ++ "\x27") :=
  ⟨(mode_matching_case_sensitivity imgBase imgOver imgSmall 1 "center" 0 0 2 2
      "NORMAL").1,
   (mode_matching_case_sensitivity imgBase imgOver imgSmall 1 "center" 0 0 2 2
      "Exact").2.1 (by decide) (by decide) (by decide) (by decide) (by decide),
   (mode_matching_case_sensitivity imgBase imgOver imgSmall 1 "center" 0 0 2 2
      "Nearest").2.2 (by decide) (by decide) (by decide)⟩

end Raster
